import Mathlib

/-!
Shallow embedding of the PL011 UART driver (`src/lib.rs`).

MMIO is modelled as a trace of volatile register accesses.  The values the
device returns on reads are supplied by an oracle (`cr0` for the single
control-register read in `init`, a function `env` from poll index to observed
value for the busy-wait loops).  Busy-wait loops take a fuel bound: a result of
`none` means the loop was still spinning when the fuel ran out.  A Rust panic
(`unwrap` failure or division by zero) is modelled explicitly where it can
occur.  Machine integers are modelled as `Nat` with explicit `% 2 ^ 32` where
the 32-bit wrap of `clock << 2` matters; `u8`/`u16` values are `Nat`s in range.
-/

/-- The registers of the PL011 register block that the driver accesses:
Data, Receive Status / Error Clear, Flag, Integer Baud Rate, Fractional Baud
Rate and Control. -/
inductive Reg where
  | dr
  | rsr
  | fr
  | ibrd
  | fbrd
  | cr
  deriving DecidableEq, Repr

/-- A single volatile access to a device register: a read observing the value
the device returned, or a write of a value. -/
inductive Event where
  | read : Reg → Nat → Event
  | write : Reg → Nat → Event
  deriving DecidableEq, Repr

/-- Receive errors, `enum Error` in the source. -/
inductive Error where
  | Break
  | Framing
  | Overrun
  | Parity
  deriving DecidableEq, Repr

/-- `Control::UARTEN`: UART enable, bit 0 of the control register. -/
def UARTEN : Nat := 1

/-- `Control::TXE`: transmit enable, bit 8 of the control register. -/
def TXE : Nat := 1 <<< 8

/-- `Control::RXE`: receive enable, bit 9 of the control register. -/
def RXE : Nat := 1 <<< 9

/-- `Flags::BUSY`: UART busy transmitting, bit 3 of the flag register. -/
def BUSY : Nat := 1 <<< 3

/-- `Flags::RXFE`: receive FIFO empty, bit 4 of the flag register. -/
def RXFE : Nat := 1 <<< 4

/-- `Flags::TXFF`: transmit FIFO full, bit 5 of the flag register. -/
def TXFF : Nat := 1 <<< 5

/-- `Control::all()`: the union of the named `Control` flag bits
(bits 0, 1, 2, 7, 8, 9, 10, 11, 12, 13, 14, 15 — bits 3..6 are reserved and
not part of the flag set). -/
def controlAll : Nat := 0xFF87

/-- bitflags `!Control::UARTEN`: complement taken within `Control::all()`,
so the reserved bits 3..6 are also absent from the mask. -/
def notUarten : Nat := controlAll &&& (0xFFFF ^^^ UARTEN)

/-- The baud-rate divisor computed by `Uart::init`:
`let divisor = (clock << 2) / baud_rate;` in `u32` arithmetic, so the shift
wraps modulo `2 ^ 32`. -/
def initDivisor (clock baud : Nat) : Nat := ((clock <<< 2) % 2 ^ 32) / baud

/-- `Uart::init(clock, baud_rate)`.  `cr0` is the value the volatile read of the
control register observes.  Returns the volatile accesses performed, in order,
paired with `true` when the call completed and `false` when it panicked:
`baud_rate = 0` makes the divisor computation divide by zero before any
register access, and a divisor whose integer part does not fit in `u16` makes
the `try_into().unwrap()` for the IBRD write panic after the first
control-register write.  (The fractional part always fits in `u8`, being at
most `0x3F`.) -/
def init (clock baud cr0 : Nat) : List Event × Bool :=
  if baud = 0 then ([], false)
  else
    let divisor := initDivisor clock baud
    let disabled := cr0 &&& notUarten
    if 2 ^ 16 ≤ divisor >>> 6 then
      ([Event.read Reg.cr cr0, Event.write Reg.cr disabled], false)
    else
      ([Event.read Reg.cr cr0,
        Event.write Reg.cr disabled,
        Event.write Reg.ibrd (divisor >>> 6),
        Event.write Reg.fbrd (divisor &&& 0x3F),
        Event.write Reg.rsr 0,
        Event.write Reg.cr (RXE ||| TXE ||| UARTEN)], true)

/-- Does the event write register `r`? -/
def writesTo (r : Reg) : Event → Bool
  | Event.write r' _ => r' == r
  | Event.read _ _ => false

/-- C1 (amended): for `baud_rate > 0`, whenever the computed divisor's integer
part `divisor >> 6` fits in `u16` (so the `unwrap` does not panic), `init`
writes exactly `divisor >> 6` to the Integer Baud-Rate register and exactly
`divisor & 0x3F` to the Fractional Baud-Rate register, where
`divisor = (clock << 2) / baud_rate` in 32-bit unsigned arithmetic. -/
theorem init_baud_divisor_writes (clock baud cr0 : Nat) (hb : 0 < baud)
    (hfit : initDivisor clock baud >>> 6 < 2 ^ 16) :
    ((init clock baud cr0).1.filter (writesTo Reg.ibrd)
        = [Event.write Reg.ibrd (initDivisor clock baud >>> 6)]) ∧
    ((init clock baud cr0).1.filter (writesTo Reg.fbrd)
        = [Event.write Reg.fbrd (initDivisor clock baud &&& 0x3F)]) ∧
    (init clock baud cr0).2 = true := by
  have hb' : baud ≠ 0 := Nat.pos_iff_ne_zero.mp hb
  have hlt : ¬ (65536 ≤ initDivisor clock baud >>> 6) := by
    simpa using Nat.not_le.mpr hfit
  simp [init, writesTo, hb', hlt]

/-- C1 witness: a concrete call (48 MHz clock, 115200 baud) hitting the
conclusion of `init_baud_divisor_writes`. -/
theorem init_baud_divisor_writes_witness :
    ((init 48000000 115200 0).1.filter (writesTo Reg.ibrd)
        = [Event.write Reg.ibrd (initDivisor 48000000 115200 >>> 6)]) ∧
    ((init 48000000 115200 0).1.filter (writesTo Reg.fbrd)
        = [Event.write Reg.fbrd (initDivisor 48000000 115200 &&& 0x3F)]) ∧
    (init 48000000 115200 0).2 = true :=
  init_baud_divisor_writes 48000000 115200 0 (by decide) (by decide)

/-- C1 counterexample: at `clock = 2 ^ 20`, `baud_rate = 1` the divisor is
`2 ^ 22`, whose integer part `2 ^ 16` does not fit in `u16`: `init` panics at
the IBRD conversion and performs no write at all to the Integer Baud-Rate
register, contrary to the claim, which quantifies over every pair with
`baud_rate > 0`. -/
theorem init_baud_divisor_counterexample :
    (init 1048576 1 0).2 = false ∧
    (init 1048576 1 0).1.filter (writesTo Reg.ibrd) = [] := by decide

/-- C2 (amended): for `baud_rate > 0` with the divisor's integer part fitting
in `u16`, the accesses of `init` are exactly, in order: the control-register
read, then five writes: (1) control with UARTEN cleared, every other *defined*
control bit preserved from the read value, and the undefined bits 3..6 cleared
(the bitflags complement `!UARTEN` only spans defined bits, so the
read-modify-write does not preserve reserved bits); (2) the integer divisor to
IBRD; (3) the fractional divisor to FBRD; (4) the receive-status register with
all error bits cleared; (5) control with exactly RXE, TXE and UARTEN set. -/
theorem init_write_sequence (clock baud cr0 : Nat) (hb : 0 < baud)
    (hfit : initDivisor clock baud >>> 6 < 2 ^ 16) :
    ∃ c1,
      (init clock baud cr0).1 =
        [Event.read Reg.cr cr0,
         Event.write Reg.cr c1,
         Event.write Reg.ibrd (initDivisor clock baud >>> 6),
         Event.write Reg.fbrd (initDivisor clock baud &&& 0x3F),
         Event.write Reg.rsr 0,
         Event.write Reg.cr (RXE ||| TXE ||| UARTEN)] ∧
      c1.testBit 0 = false ∧
      (∀ i ∈ [1, 2, 7, 8, 9, 10, 11, 12, 13, 14, 15],
        c1.testBit i = cr0.testBit i) ∧
      (∀ i, i ∉ [0, 1, 2, 7, 8, 9, 10, 11, 12, 13, 14, 15] →
        c1.testBit i = false) := by
  have hb' : baud ≠ 0 := Nat.pos_iff_ne_zero.mp hb
  have hlt : ¬ (65536 ≤ initDivisor clock baud >>> 6) := by
    simpa using Nat.not_le.mpr hfit
  have hmask : notUarten = 65414 := by decide
  refine ⟨cr0 &&& notUarten, by simp [init, hb', hlt], ?_, ?_, ?_⟩
  · simp [hmask, Nat.testBit_and]
  · intro i hi
    fin_cases hi <;> simp [hmask, Nat.testBit_and] <;> exact fun _ => by decide
  · intro i hi
    rcases Nat.lt_or_ge i 16 with h16 | h16
    · interval_cases i <;> simp_all [hmask, Nat.testBit_and] <;>
        exact fun _ => by decide
    · have hlt2 : (65414 : Nat) < 2 ^ i :=
        Nat.lt_of_lt_of_le (by decide)
          (Nat.pow_le_pow_right (by decide) h16)
      simp [hmask, Nat.testBit_and, Nat.testBit_lt_two_pow hlt2]

/-- C2 witness: a concrete call of `init` (48 MHz clock, 115200 baud, control
register observed as 5) hitting the conclusion of `init_write_sequence`. -/
theorem init_write_sequence_witness :
    ∃ c1,
      (init 48000000 115200 5).1 =
        [Event.read Reg.cr 5,
         Event.write Reg.cr c1,
         Event.write Reg.ibrd (initDivisor 48000000 115200 >>> 6),
         Event.write Reg.fbrd (initDivisor 48000000 115200 &&& 0x3F),
         Event.write Reg.rsr 0,
         Event.write Reg.cr (RXE ||| TXE ||| UARTEN)] ∧
      c1.testBit 0 = false ∧
      (∀ i ∈ [1, 2, 7, 8, 9, 10, 11, 12, 13, 14, 15],
        c1.testBit i = (5 : Nat).testBit i) ∧
      (∀ i, i ∉ [0, 1, 2, 7, 8, 9, 10, 11, 12, 13, 14, 15] →
        c1.testBit i = false) :=
  init_write_sequence 48000000 115200 5 (by decide) (by decide)

/-- C2 counterexample: the claim quantifies over every call, but with
`baud_rate = 0` the divisor computation panics before any register access, so
no write at all is issued; and with the control register observed as `8`
(reserved bit 3 set) the first control write is `0`, so the previously-read
bit 3 is cleared rather than preserved. -/
theorem init_write_sequence_counterexample :
    (init 1 0 0).1 = [] ∧
    (init 1 1 8).1.filter (writesTo Reg.cr)
      = [Event.write Reg.cr 0, Event.write Reg.cr 769] := by decide

/-- C3 (amended): `init` completes without panicking exactly when `baud_rate`
is nonzero and the computed divisor's integer part fits in `u16`; within that
domain there is no software-detectable failure, but outside it the
`try_into().unwrap()` for the IBRD write (or, for `baud_rate = 0`, the
division) aborts. -/
theorem init_no_panic_iff (clock baud cr0 : Nat) :
    (init clock baud cr0).2 = true ↔
      (0 < baud ∧ initDivisor clock baud >>> 6 < 2 ^ 16) := by
  by_cases hb : baud = 0
  · simp [init, hb]
  · by_cases hle : 65536 ≤ initDivisor clock baud >>> 6
    · simp [init, hb, hle, Nat.not_lt.mpr hle]
    · simp [init, hb, hle, Nat.pos_of_ne_zero hb, Nat.lt_of_not_le hle]

/-- C3 witness: a concrete in-range call of `init_no_panic_iff`. -/
theorem init_no_panic_witness : (init 48000000 115200 0).2 = true :=
  (init_no_panic_iff 48000000 115200 0).mpr (by decide)

/-- C3 counterexample: at `clock = 2 ^ 21`, `baud_rate = 1` (a nonzero baud
rate) `init` panics at the IBRD `unwrap`, although the claim allows no abort
for any `baud_rate > 0`. -/
theorem init_no_panic_counterexample : (init 2097152 1 0).2 = false := by decide

/-- `k` consecutive volatile reads of the flag register, starting at poll
index `s`, each observing the value the oracle `env` supplies. -/
def spinReads (env : Nat → Nat) : Nat → Nat → List Event
  | _, 0 => []
  | s, k + 1 => Event.read Reg.fr (env s) :: spinReads env (s + 1) k

/-- A spin over flag-register reads contains no write to any register. -/
theorem spinReads_no_writes (env : Nat → Nat) :
    ∀ k s r, (spinReads env s k).filter (writesTo r) = [] := by
  intro k
  induction k with
  | zero => intro s r; simp [spinReads]
  | succ n ih => intro s r; simp [spinReads, writesTo, ih]

/-- The busy-wait loop of `Uart::write_byte`: while the observed flag value has
`Flags::TXFF` set, spin and poll again; once it is clear, perform one volatile
write of the byte (a `u8`, zero-extended to `u16` by `u16::from`) to the Data
register.  `env i` is the flag-register value observed by the `i`-th volatile
read, `fuel` bounds the spin loop; on success the access trace and the next
unused poll index are returned, `none` means the fuel ran out while still
spinning. -/
def writeByteAux (env : Nat → Nat) (byte : Nat) :
    Nat → Nat → Option (List Event × Nat)
  | 0, _ => none
  | fuel + 1, i =>
    if env i &&& TXFF ≠ 0 then
      (writeByteAux env byte fuel (i + 1)).map
        (fun p => (Event.read Reg.fr (env i) :: p.1, p.2))
    else
      some ([Event.read Reg.fr (env i), Event.write Reg.dr byte], i + 1)

/-- `Uart::write_byte(byte)`, polling from index 0. -/
def write_byte (env : Nat → Nat) (fuel byte : Nat) : Option (List Event × Nat) :=
  writeByteAux env byte fuel 0

/-- Characterization of every completed `writeByteAux` run starting at poll
index `s`: some `k` polls observed TXFF set, poll `s + k` observed it clear,
and the trace is those flag reads followed by the single Data-register write. -/
theorem writeByteAux_spec (env : Nat → Nat) (byte fuel : Nat) :
    ∀ s tr j, writeByteAux env byte fuel s = some (tr, j) →
      ∃ k, (∀ i, i < k → env (s + i) &&& TXFF ≠ 0) ∧ env (s + k) &&& TXFF = 0 ∧
        tr = spinReads env s k ++
          [Event.read Reg.fr (env (s + k)), Event.write Reg.dr byte] ∧
        j = s + k + 1 := by
  induction fuel with
  | zero => intro s tr j h; simp [writeByteAux] at h
  | succ n ih =>
    intro s tr j h
    rw [writeByteAux] at h
    by_cases hf : env s &&& TXFF ≠ 0
    · rw [if_pos hf] at h
      cases hrec : writeByteAux env byte n (s + 1) with
      | none => rw [hrec] at h; simp at h
      | some p =>
        rw [hrec] at h
        simp only [Option.map_some', Option.some.injEq] at h
        obtain ⟨htr, hj⟩ := Prod.mk.injEq .. ▸ h
        obtain ⟨k, h1, h2, h3, h4⟩ := ih (s + 1) p.1 p.2 (by rw [hrec])
        refine ⟨k + 1, ?_, ?_, ?_, ?_⟩
        · intro i hi
          cases i with
          | zero => simpa using hf
          | succ m =>
            have hm := h1 m (by omega)
            rw [show s + (m + 1) = s + 1 + m by omega]
            exact hm
        · rw [show s + (k + 1) = s + 1 + k by omega]
          exact h2
        · rw [← htr, h3, spinReads,
            show s + (k + 1) = s + 1 + k by omega]
          simp
        · omega
    · rw [if_neg hf] at h
      push_neg at hf
      simp only [Option.some.injEq] at h
      obtain ⟨htr, hj⟩ := Prod.mk.injEq .. ▸ h
      refine ⟨0, by omega, by simpa using hf, ?_, by omega⟩
      rw [← htr]
      simp [spinReads]

/-- C5: whenever `write_byte` completes, its trace consists of flag-register
reads all observing TXFF set, then one flag read observing TXFF clear, and only
then the single volatile write of the byte to the Data register — so no Data
write ever happens while the transmit-FIFO-full flag is observed set, and
exactly one Data write occurs. -/
theorem write_byte_no_write_while_full (env : Nat → Nat) (fuel byte : Nat)
    (tr : List Event) (j : Nat) (h : write_byte env fuel byte = some (tr, j)) :
    ∃ k, (∀ i, i < k → env i &&& TXFF ≠ 0) ∧ env k &&& TXFF = 0 ∧
      tr = spinReads env 0 k ++
        [Event.read Reg.fr (env k), Event.write Reg.dr byte] ∧
      tr.filter (writesTo Reg.dr) = [Event.write Reg.dr byte] := by
  obtain ⟨k, h1, h2, h3, _⟩ := writeByteAux_spec env byte fuel 0 tr j h
  refine ⟨k, by simpa using h1, by simpa using h2, by simpa using h3, ?_⟩
  rw [h3]
  simp [List.filter_append, spinReads_no_writes, writesTo]

/-- C5 witness: with the transmit FIFO observed full once and then no longer
full, `write_byte` spins once and then writes the byte. -/
theorem write_byte_no_write_while_full_witness :
    ∃ k, (∀ i, i < k → (fun i => if i = 0 then (32 : Nat) else 0) i &&& TXFF ≠ 0) ∧
      (fun i => if i = 0 then (32 : Nat) else 0) k &&& TXFF = 0 ∧
      ([Event.read Reg.fr 32, Event.read Reg.fr 0, Event.write Reg.dr 65]
          = spinReads (fun i => if i = 0 then (32 : Nat) else 0) 0 k ++
            [Event.read Reg.fr ((fun i => if i = 0 then (32 : Nat) else 0) k),
             Event.write Reg.dr 65]) ∧
      ([Event.read Reg.fr 32, Event.read Reg.fr 0,
          Event.write Reg.dr 65].filter (writesTo Reg.dr)
        = [Event.write Reg.dr 65]) :=
  write_byte_no_write_while_full (fun i => if i = 0 then 32 else 0) 2 65
    [Event.read Reg.fr 32, Event.read Reg.fr 0, Event.write Reg.dr 65] 2
    (by decide)

/-- The busy-wait loop of `Write::flush` for `Uart`: while `is_transmitting()`
holds (the observed flag value has `Flags::BUSY` set) spin and poll again; once
clear, return.  `env i` is the flag-register value observed by the `i`-th
volatile read; returns the access trace and the next unused poll index, or
`none` when the fuel ran out while still spinning. -/
def flushAux (env : Nat → Nat) : Nat → Nat → Option (List Event × Nat)
  | 0, _ => none
  | fuel + 1, i =>
    if env i &&& BUSY ≠ 0 then
      (flushAux env fuel (i + 1)).map
        (fun p => (Event.read Reg.fr (env i) :: p.1, p.2))
    else
      some ([Event.read Reg.fr (env i)], i + 1)

instance {ε α : Type} [DecidableEq ε] [DecidableEq α] :
    DecidableEq (Except ε α) := fun x y =>
  match x, y with
  | .ok a, .ok b =>
    if h : a = b then .isTrue (congrArg Except.ok h)
    else .isFalse (fun hh => h (Except.ok.inj hh))
  | .error a, .error b =>
    if h : a = b then .isTrue (congrArg Except.error h)
    else .isFalse (fun hh => h (Except.error.inj hh))
  | .ok _, .error _ => .isFalse (fun hh => Except.noConfusion hh)
  | .error _, .ok _ => .isFalse (fun hh => Except.noConfusion hh)

/-- `Write::flush` for `Uart`: spin until `Flags::BUSY` is clear, then return
`Ok(())`. -/
def flush (env : Nat → Nat) (fuel : Nat) :
    Option (Except Error Unit × List Event) :=
  (flushAux env fuel 0).map (fun p => (Except.ok (), p.1))

/-- Characterization of every completed `flushAux` run starting at poll index
`s`: some `k` polls observed BUSY set, poll `s + k` observed it clear, and the
trace is exactly those flag-register reads. -/
theorem flushAux_spec (env : Nat → Nat) (fuel : Nat) :
    ∀ s tr j, flushAux env fuel s = some (tr, j) →
      ∃ k, (∀ i, i < k → env (s + i) &&& BUSY ≠ 0) ∧ env (s + k) &&& BUSY = 0 ∧
        tr = spinReads env s (k + 1) := by
  induction fuel with
  | zero => intro s tr j h; simp [flushAux] at h
  | succ n ih =>
    intro s tr j h
    rw [flushAux] at h
    by_cases hf : env s &&& BUSY ≠ 0
    · rw [if_pos hf] at h
      cases hrec : flushAux env n (s + 1) with
      | none => rw [hrec] at h; simp at h
      | some p =>
        rw [hrec] at h
        simp only [Option.map_some', Option.some.injEq] at h
        obtain ⟨htr, _⟩ := Prod.mk.injEq .. ▸ h
        obtain ⟨k, h1, h2, h3⟩ := ih (s + 1) p.1 p.2 (by rw [hrec])
        refine ⟨k + 1, ?_, ?_, ?_⟩
        · intro i hi
          cases i with
          | zero => simpa using hf
          | succ m =>
            have hm := h1 m (by omega)
            rw [show s + (m + 1) = s + 1 + m by omega]
            exact hm
        · rw [show s + (k + 1) = s + 1 + k by omega]
          exact h2
        · rw [← htr, h3]
          simp [spinReads]
    · rw [if_neg hf] at h
      push_neg at hf
      simp only [Option.some.injEq] at h
      obtain ⟨htr, _⟩ := Prod.mk.injEq .. ▸ h
      refine ⟨0, by omega, by simpa using hf, ?_⟩
      rw [← htr]
      simp [spinReads]

/-- C4 (amended): this driver is the synchronous-flush variant — whenever
`flush` returns, it has busy-waited on the flag register until the BUSY flag
was observed clear, its trace being exactly those flag reads (so it performs
reads but no write to any register) and its result `Ok(())`. -/
theorem flush_busy_waits (env : Nat → Nat) (fuel : Nat) (r : Except Error Unit)
    (tr : List Event) (h : flush env fuel = some (r, tr)) :
    r = Except.ok () ∧
    ∃ k, (∀ i, i < k → env i &&& BUSY ≠ 0) ∧ env k &&& BUSY = 0 ∧
      tr = spinReads env 0 (k + 1) ∧
      (∀ rg, tr.filter (writesTo rg) = []) := by
  unfold flush at h
  cases hrec : flushAux env fuel 0 with
  | none => rw [hrec] at h; simp at h
  | some p =>
    rw [hrec] at h
    simp only [Option.map_some', Option.some.injEq] at h
    obtain ⟨hr, htr⟩ := Prod.mk.injEq .. ▸ h
    obtain ⟨k, h1, h2, h3⟩ := flushAux_spec env fuel 0 p.1 p.2 hrec
    refine ⟨hr.symm, k, by simpa using h1, by simpa using h2, ?_, ?_⟩
    · rw [← htr, h3]
    · intro rg
      rw [← htr, h3]
      exact spinReads_no_writes env (k + 1) 0 rg

/-- C4 witness: with BUSY observed set once and then clear, `flush` spins once,
reads the flag register twice in total, writes nothing, and returns `Ok(())`. -/
theorem flush_busy_waits_witness :
    Except.ok () = (Except.ok () : Except Error Unit) ∧
    ∃ k, (∀ i, i < k → (fun i => if i = 0 then (8 : Nat) else 0) i &&& BUSY ≠ 0) ∧
      (fun i => if i = 0 then (8 : Nat) else 0) k &&& BUSY = 0 ∧
      ([Event.read Reg.fr 8, Event.read Reg.fr 0]
          = spinReads (fun i => if i = 0 then (8 : Nat) else 0) 0 (k + 1)) ∧
      (∀ rg, [Event.read Reg.fr 8, Event.read Reg.fr 0].filter (writesTo rg)
          = []) :=
  flush_busy_waits (fun i => if i = 0 then 8 else 0) 2 (Except.ok ())
    [Event.read Reg.fr 8, Event.read Reg.fr 0] (by decide)

/-- C4 counterexample: `flush` is not a no-op.  Even with BUSY observed clear it
performs a volatile flag-register read (a device register access), and with
BUSY stuck set it spins without returning — contrary to the claim that it
performs no device register access and waits on nothing. -/
theorem flush_noop_counterexample :
    flush (fun _ => 0) 1 = some (Except.ok (), [Event.read Reg.fr 0]) ∧
    flush (fun _ => 0) 1 ≠ some (Except.ok (), []) ∧
    flush (fun _ => 8) 5 = none := by decide

/-- `Data::all()`: the union of the named `Data` flag bits — the 8 data bits
plus FE (bit 8), PE (bit 9), BE (bit 10) and OE (bit 11). -/
def dataAll : Nat := 0xFFF

/-- `Uart::read_byte`.  `fr` is the value observed by the volatile read of the
flag register, `dr` the `u16` value a volatile read of the Data register would
observe.  If `Flags::RXFE` is set the result is `Ok(None)` and the Data
register is not read; otherwise the Data register is read once, its value is
truncated to the known `Data` bits (`from_bits_truncate`), the four error bits
are tested in the order FE, PE, BE, OE, and if none is set the low byte
(`data as u8`) is returned.  The returned pair is the result together with the
volatile accesses performed. -/
def readByteFull (fr dr : Nat) : Except Error (Option Nat) × List Event :=
  if fr &&& RXFE ≠ 0 then
    (Except.ok none, [Event.read Reg.fr fr])
  else
    let error_status := dr &&& dataAll
    let res : Except Error (Option Nat) :=
      if error_status &&& 0x100 ≠ 0 then Except.error Error.Framing
      else if error_status &&& 0x200 ≠ 0 then Except.error Error.Parity
      else if error_status &&& 0x400 ≠ 0 then Except.error Error.Break
      else if error_status &&& 0x800 ≠ 0 then Except.error Error.Overrun
      else Except.ok (some (dr % 256))
    (res, [Event.read Reg.fr fr, Event.read Reg.dr dr])

/-- The result of `Uart::read_byte`, without the access trace. -/
def read_byte (fr dr : Nat) : Except Error (Option Nat) :=
  (readByteFull fr dr).1

/-- A nonzero bitwise AND with a single power of two is exactly a set bit. -/
theorem and_bit_ne (n k : Nat) : n &&& 2 ^ k ≠ 0 ↔ n.testBit k = true := by
  rw [Nat.and_two_pow]
  cases h : n.testBit k
  · simp
  · simp [Nat.pos_iff_ne_zero.mp (Nat.two_pow_pos k)]

/-- C6: when data is present (RXFE clear), the error bits of the Data value are
inspected in the fixed priority order Framing (bit 8), Parity (bit 9), Break
(bit 10), Overrun (bit 11): the first set bit determines the error even when
several are set, and only when all four are clear is the low byte returned. -/
theorem read_byte_error_priority (fr dr : Nat) (hfr : fr.testBit 4 = false) :
    (dr.testBit 8 = true → read_byte fr dr = Except.error Error.Framing) ∧
    (dr.testBit 8 = false → dr.testBit 9 = true →
      read_byte fr dr = Except.error Error.Parity) ∧
    (dr.testBit 8 = false → dr.testBit 9 = false → dr.testBit 10 = true →
      read_byte fr dr = Except.error Error.Break) ∧
    (dr.testBit 8 = false → dr.testBit 9 = false → dr.testBit 10 = false →
      dr.testBit 11 = true → read_byte fr dr = Except.error Error.Overrun) ∧
    (dr.testBit 8 = false → dr.testBit 9 = false → dr.testBit 10 = false →
      dr.testBit 11 = false → read_byte fr dr = Except.ok (some (dr % 256))) := by
  have efr : fr &&& RXFE = 0 := by
    have h := and_bit_ne fr 4
    rw [hfr] at h
    simpa [RXFE] using h
  have e8 : (dr &&& dataAll) &&& 0x100 ≠ 0 ↔ dr.testBit 8 = true := by
    have hm : dataAll &&& 0x100 = 2 ^ 8 := by decide
    rw [Nat.and_assoc, hm, and_bit_ne]
  have e9 : (dr &&& dataAll) &&& 0x200 ≠ 0 ↔ dr.testBit 9 = true := by
    have hm : dataAll &&& 0x200 = 2 ^ 9 := by decide
    rw [Nat.and_assoc, hm, and_bit_ne]
  have e10 : (dr &&& dataAll) &&& 0x400 ≠ 0 ↔ dr.testBit 10 = true := by
    have hm : dataAll &&& 0x400 = 2 ^ 10 := by decide
    rw [Nat.and_assoc, hm, and_bit_ne]
  have e11 : (dr &&& dataAll) &&& 0x800 ≠ 0 ↔ dr.testBit 11 = true := by
    have hm : dataAll &&& 0x800 = 2 ^ 11 := by decide
    rw [Nat.and_assoc, hm, and_bit_ne]
  refine ⟨?_, ?_, ?_, ?_, ?_⟩
  · intro h8
    simp [read_byte, readByteFull, efr, e8, e9, e10, e11, h8]
  · intro h8 h9
    simp [read_byte, readByteFull, efr, e8, e9, e10, e11, h8, h9]
  · intro h8 h9 h10
    simp [read_byte, readByteFull, efr, e8, e9, e10, e11, h8, h9, h10]
  · intro h8 h9 h10 h11
    simp [read_byte, readByteFull, efr, e8, e9, e10, e11, h8, h9, h10, h11]
  · intro h8 h9 h10 h11
    simp [read_byte, readByteFull, efr, e8, e9, e10, e11, h8, h9, h10, h11]

/-- C6 witness: with all four error bits set (`0xF00`) the reported error is
Framing; with FE clear but PE, BE, OE set (`0xE00`) it is Parity; with only BE
and OE set (`0xC00`) it is Break; with only OE set (`0x800`) it is Overrun; and
with no error bit the received byte is returned. -/
theorem read_byte_error_priority_witness :
    read_byte 0 0xF00 = Except.error Error.Framing ∧
    read_byte 0 0xE00 = Except.error Error.Parity ∧
    read_byte 0 0xC00 = Except.error Error.Break ∧
    read_byte 0 0x800 = Except.error Error.Overrun ∧
    read_byte 0 0x41 = Except.ok (some 0x41) :=
  ⟨(read_byte_error_priority 0 0xF00 (by decide)).1 (by decide),
   (read_byte_error_priority 0 0xE00 (by decide)).2.1 (by decide) (by decide),
   (read_byte_error_priority 0 0xC00 (by decide)).2.2.1 (by decide) (by decide)
     (by decide),
   (read_byte_error_priority 0 0x800 (by decide)).2.2.2.1 (by decide) (by decide)
     (by decide) (by decide),
   (read_byte_error_priority 0 0x41 (by decide)).2.2.2.2 (by decide) (by decide)
     (by decide) (by decide)⟩

/-- Does the event read register `r`? -/
def readsFrom (r : Reg) : Event → Bool
  | Event.read r' _ => r' == r
  | Event.write _ _ => false

/-- C7: whenever the receive-FIFO-empty flag (bit 4) is set, `read_byte`
returns `Ok(None)` — a success, not an error — regardless of the Data register
contents, and its whole trace is the single flag-register read, so the Data
register is not read; when the flag is clear, the trace contains exactly one
Data-register read. -/
theorem read_byte_rxfe_no_data (fr dr : Nat) :
    (fr.testBit 4 = true →
      readByteFull fr dr = (Except.ok none, [Event.read Reg.fr fr])) ∧
    (fr.testBit 4 = false →
      (readByteFull fr dr).2.filter (readsFrom Reg.dr)
        = [Event.read Reg.dr dr]) := by
  constructor
  · intro h4
    have hne : fr &&& RXFE ≠ 0 := by
      have h := and_bit_ne fr 4
      rw [h4] at h
      simpa [RXFE] using h
    simp [readByteFull, hne]
  · intro h4
    have heq : fr &&& RXFE = 0 := by
      have h := and_bit_ne fr 4
      rw [h4] at h
      simpa [RXFE] using h
    simp [readByteFull, heq, readsFrom]

/-- C7 witness: with RXFE set the Data register — even one full of error bits —
is not read and `Ok(None)` is returned; with RXFE clear the Data register is
read exactly once. -/
theorem read_byte_rxfe_no_data_witness :
    readByteFull 16 0xF00 = (Except.ok none, [Event.read Reg.fr 16]) ∧
    (readByteFull 0 66).2.filter (readsFrom Reg.dr) = [Event.read Reg.dr 66] :=
  ⟨(read_byte_rxfe_no_data 16 0xF00).1 (by decide),
   (read_byte_rxfe_no_data 0 66).2 (by decide)⟩

/-- `Write::write` for `Uart`: empty buffer returns `Ok(0)` without any device
access; otherwise `write_byte(buf[0])` then `Ok(1)`. -/
def write (env : Nat → Nat) (fuel : Nat) (buf : List Nat) :
    Option (Except Error Nat × List Event) :=
  match buf with
  | [] => some (Except.ok 0, [])
  | b :: _ => (writeByteAux env b fuel 0).map (fun p => (Except.ok 1, p.1))

/-- C8: the stream-adapter `write` returns `Ok(0)` with an empty access trace
on an empty buffer; on any non-empty buffer (whenever the inner busy-wait
completes) it returns `Ok(1)` and its trace contains exactly one Data-register
write, of the first byte of the buffer, regardless of the buffer's length. -/
theorem write_first_byte_only (env : Nat → Nat) (fuel : Nat) (buf : List Nat) :
    (buf = [] → write env fuel buf = some (Except.ok 0, [])) ∧
    (∀ b rest r tr, buf = b :: rest → write env fuel buf = some (r, tr) →
      r = Except.ok 1 ∧
      tr.filter (writesTo Reg.dr) = [Event.write Reg.dr b]) := by
  constructor
  · intro hb; rw [hb]; rfl
  · intro b rest r tr hb h
    rw [hb] at h
    rw [write] at h
    cases hrec : writeByteAux env b fuel 0 with
    | none => rw [hrec] at h; simp at h
    | some p =>
      rw [hrec] at h
      simp only [Option.map_some', Option.some.injEq] at h
      obtain ⟨hr, htr⟩ := Prod.mk.injEq .. ▸ h
      obtain ⟨k, _, _, h3, _⟩ := writeByteAux_spec env b fuel 0 p.1 p.2 hrec
      refine ⟨hr.symm, ?_⟩
      rw [← htr, h3]
      simp [List.filter_append, spinReads_no_writes, writesTo]

/-- C8 witness: `write` on the empty buffer, and on the buffer `[65, 66]`,
where exactly the first byte 65 is written to the Data register. -/
theorem write_first_byte_only_witness :
    write (fun _ => 0) 1 ([] : List Nat) = some (Except.ok 0, []) ∧
    ((Except.ok 1 : Except Error Nat) = Except.ok 1 ∧
      [Event.read Reg.fr 0, Event.write Reg.dr 65].filter (writesTo Reg.dr)
        = [Event.write Reg.dr 65]) :=
  ⟨(write_first_byte_only (fun _ => 0) 1 []).1 rfl,
   (write_first_byte_only (fun _ => 0) 1 [65, 66]).2 65 [66] (Except.ok 1)
     [Event.read Reg.fr 0, Event.write Reg.dr 65] rfl (by decide)⟩

/-- The polling loop of `Read::read` for `Uart`: each iteration performs one
`read_byte` poll, `env i` supplying the flag-register and Data-register values
the `i`-th poll observes.  An error is propagated immediately, `Ok(None)`
continues the loop, and `Ok(Some(byte))` stops it.  Returns the result and the
accumulated access trace, or `none` when the fuel ran out while polls kept
reporting no data. -/
def readLoop (env : Nat → Nat × Nat) : Nat → Nat → Option (Except Error Nat × List Event)
  | 0, _ => none
  | fuel + 1, i =>
    match read_byte (env i).1 (env i).2 with
    | Except.error e =>
      some (Except.error e, (readByteFull (env i).1 (env i).2).2)
    | Except.ok none =>
      (readLoop env fuel (i + 1)).map
        (fun q => (q.1, (readByteFull (env i).1 (env i).2).2 ++ q.2))
    | Except.ok (some b) =>
      some (Except.ok b, (readByteFull (env i).1 (env i).2).2)

/-- `Read::read` for `Uart`: empty buffer returns `Ok(0)` immediately;
otherwise poll `read_byte` until a byte arrives, store it in the first slot of
the buffer, and return `Ok(1)`; a decoded receive error is returned instead of
continuing the loop.  The result carries the count and the updated buffer. -/
def read (env : Nat → Nat × Nat) (fuel : Nat) (buf : List Nat) :
    Option (Except Error (Nat × List Nat) × List Event) :=
  match buf with
  | [] => some (Except.ok (0, []), [])
  | _ :: rest =>
    (readLoop env fuel 0).map (fun q =>
      match q.1 with
      | Except.error e => (Except.error e, q.2)
      | Except.ok b => (Except.ok (1, b :: rest), q.2))

/-- Characterization of every completed `readLoop` run starting at poll index
`s`: some `k` polls reported no data, and poll `s + k` either decoded an error,
which becomes the result, or yielded a byte, which becomes the result. -/
theorem readLoop_spec (env : Nat → Nat × Nat) (fuel : Nat) :
    ∀ s r tr, readLoop env fuel s = some (r, tr) →
      ∃ k, (∀ i, i < k →
          read_byte (env (s + i)).1 (env (s + i)).2 = Except.ok none) ∧
        ((∃ e, read_byte (env (s + k)).1 (env (s + k)).2 = Except.error e ∧
            r = Except.error e) ∨
         (∃ b, read_byte (env (s + k)).1 (env (s + k)).2 = Except.ok (some b) ∧
            r = Except.ok b)) := by
  induction fuel with
  | zero => intro s r tr h; simp [readLoop] at h
  | succ n ih =>
    intro s r tr h
    rw [readLoop] at h
    cases hres : read_byte (env s).1 (env s).2 with
    | error e =>
      rw [hres] at h
      simp only [Option.some.injEq] at h
      obtain ⟨hr, _⟩ := Prod.mk.injEq .. ▸ h
      exact ⟨0, by omega, Or.inl ⟨e, by simpa using hres, hr.symm⟩⟩
    | ok ob =>
      cases ob with
      | none =>
        rw [hres] at h
        cases hrec : readLoop env n (s + 1) with
        | none => rw [hrec] at h; simp at h
        | some q =>
          rw [hrec] at h
          simp only [Option.map_some', Option.some.injEq] at h
          obtain ⟨hr, _⟩ := Prod.mk.injEq .. ▸ h
          obtain ⟨k, h1, h2⟩ := ih (s + 1) q.1 q.2 hrec
          refine ⟨k + 1, ?_, ?_⟩
          · intro i hi
            cases i with
            | zero => simpa using hres
            | succ m =>
              have hm := h1 m (by omega)
              rw [show s + (m + 1) = s + 1 + m by omega]
              exact hm
          · rw [show s + (k + 1) = s + 1 + k by omega, ← hr]
            exact h2
      | some b =>
        rw [hres] at h
        simp only [Option.some.injEq] at h
        obtain ⟨hr, _⟩ := Prod.mk.injEq .. ▸ h
        exact ⟨0, by omega, Or.inr ⟨b, by simpa using hres, hr.symm⟩⟩

/-- C9: the stream-adapter `read` returns `Ok(0)` immediately with no device
access on an empty buffer; on a non-empty buffer (whenever the polling loop
completes) some `k` initial polls reported no data, and the first poll that did
not either decoded a hardware error, which is returned at once instead of
looping on, or produced a byte, which is stored in the buffer's first slot with
result `Ok(1)`. -/
theorem read_stream_spec (env : Nat → Nat × Nat) (fuel : Nat) (buf : List Nat) :
    (buf = [] → read env fuel buf = some (Except.ok (0, []), [])) ∧
    (∀ x rest res tr, buf = x :: rest → read env fuel buf = some (res, tr) →
      ∃ k, (∀ i, i < k →
          read_byte (env i).1 (env i).2 = Except.ok none) ∧
        ((∃ e, read_byte (env k).1 (env k).2 = Except.error e ∧
            res = Except.error e) ∨
         (∃ b, read_byte (env k).1 (env k).2 = Except.ok (some b) ∧
            res = Except.ok (1, b :: rest)))) := by
  constructor
  · intro hb; rw [hb]; rfl
  · intro x rest res tr hb h
    rw [hb] at h
    have hunfold : read env fuel (x :: rest)
        = (readLoop env fuel 0).map (fun q =>
            match q.1 with
            | Except.error e => (Except.error e, q.2)
            | Except.ok b => (Except.ok (1, b :: rest), q.2)) := rfl
    rw [hunfold] at h
    cases hrec : readLoop env fuel 0 with
    | none => rw [hrec] at h; simp at h
    | some q =>
      rw [hrec] at h
      simp only [Option.map_some', Option.some.injEq] at h
      obtain ⟨hres, _⟩ := Prod.mk.injEq .. ▸ h
      obtain ⟨k, h1, h2⟩ := readLoop_spec env fuel 0 q.1 q.2 hrec
      refine ⟨k, by simpa using h1, ?_⟩
      rcases h2 with ⟨e, he, hq⟩ | ⟨b, hbb, hq⟩
      · refine Or.inl ⟨e, by simpa using he, ?_⟩
        rw [← hres, hq]
      · refine Or.inr ⟨b, by simpa using hbb, ?_⟩
        rw [← hres, hq]

/-- C9 witness: the first poll sees an empty receive FIFO, the second delivers
byte 66; `read` on the one-byte buffer returns `Ok(1)` with 66 stored. -/
theorem read_stream_spec_witness :
    ∃ k, (∀ i, i < k →
        read_byte ((fun i => if i = 0 then ((16 : Nat), (0 : Nat)) else (0, 66)) i).1
          ((fun i => if i = 0 then ((16 : Nat), (0 : Nat)) else (0, 66)) i).2
          = Except.ok none) ∧
      ((∃ e, read_byte
            ((fun i => if i = 0 then ((16 : Nat), (0 : Nat)) else (0, 66)) k).1
            ((fun i => if i = 0 then ((16 : Nat), (0 : Nat)) else (0, 66)) k).2
            = Except.error e ∧
          (Except.ok (1, [66]) : Except Error (Nat × List Nat)) = Except.error e) ∨
       (∃ b, read_byte
            ((fun i => if i = 0 then ((16 : Nat), (0 : Nat)) else (0, 66)) k).1
            ((fun i => if i = 0 then ((16 : Nat), (0 : Nat)) else (0, 66)) k).2
            = Except.ok (some b) ∧
          (Except.ok (1, [66]) : Except Error (Nat × List Nat))
            = Except.ok (1, b :: []))) :=
  (read_stream_spec (fun i => if i = 0 then (16, 0) else (0, 66)) 2 [0]).2
    0 [] (Except.ok (1, [66]))
    [Event.read Reg.fr 16, Event.read Reg.fr 0, Event.read Reg.dr 66]
    rfl (by decide)

/-- The value a Data-register write event carries, if it is one. -/
def dataWriteValue : Event → Option Nat
  | Event.write Reg.dr v => some v
  | _ => none

/-- A spin over flag-register reads contributes no Data-register writes. -/
theorem spinReads_no_data (env : Nat → Nat) :
    ∀ k s, (spinReads env s k).filterMap dataWriteValue = [] := by
  intro k
  induction k with
  | zero => intro s; simp [spinReads]
  | succ n ih => intro s; simp [spinReads, dataWriteValue, ih]

/-- The Data-register writes of a completed `writeByteAux` run are exactly the
one write of its byte. -/
theorem writeByteAux_dataWrites (env : Nat → Nat) (byte fuel s : Nat)
    (tr : List Event) (j : Nat) (h : writeByteAux env byte fuel s = some (tr, j)) :
    tr.filterMap dataWriteValue = [byte] := by
  obtain ⟨k, _, _, h3, _⟩ := writeByteAux_spec env byte fuel s tr j h
  rw [h3]
  simp [List.filterMap_append, spinReads_no_data, dataWriteValue]

/-- The loop body of `fmt::Write::write_str` for `Uart`: one `write_byte` per
byte of the string, in order, threading the poll index through the spins. -/
def writeStrGo (env : Nat → Nat) (fuel : Nat) :
    List Nat → Nat → Option (List Event × Nat)
  | [], i => some ([], i)
  | b :: rest, i =>
    match writeByteAux env b fuel i with
    | none => none
    | some p => (writeStrGo env fuel rest p.2).map (fun q => (p.1 ++ q.1, q.2))

/-- `fmt::Write::write_str` for `Uart`: transmit every byte of the string via
`write_byte` and return `Ok(())`; the error type is `fmt::Error`, modelled as
`Unit`, and no code path produces it. -/
def write_str (env : Nat → Nat) (fuel : Nat) (s : List Nat) :
    Option (Except Unit Unit × List Event) :=
  (writeStrGo env fuel s 0).map (fun p => (Except.ok (), p.1))

/-- The Data-register writes of a completed `writeStrGo` run are exactly the
bytes of the string, in order. -/
theorem writeStrGo_spec (env : Nat → Nat) (fuel : Nat) :
    ∀ l : List Nat, ∀ i tr j, writeStrGo env fuel l i = some (tr, j) →
      tr.filterMap dataWriteValue = l := by
  intro l
  induction l with
  | nil =>
    intro i tr j h
    rw [writeStrGo] at h
    simp only [Option.some.injEq] at h
    obtain ⟨htr, _⟩ := Prod.mk.injEq .. ▸ h
    rw [← htr]
    rfl
  | cons b rest ih =>
    intro i tr j h
    rw [writeStrGo] at h
    cases hwb : writeByteAux env b fuel i with
    | none => rw [hwb] at h; simp at h
    | some p =>
      rw [hwb] at h
      have h' : (writeStrGo env fuel rest p.2).map (fun q => (p.1 ++ q.1, q.2))
          = some (tr, j) := h
      cases hrec : writeStrGo env fuel rest p.2 with
      | none => rw [hrec] at h'; simp at h'
      | some q =>
        rw [hrec] at h'
        simp only [Option.map_some', Option.some.injEq] at h'
        obtain ⟨htr, _⟩ := Prod.mk.injEq .. ▸ h'
        rw [← htr, List.filterMap_append,
          writeByteAux_dataWrites env b fuel i p.1 p.2 (by rw [hwb]),
          ih p.2 q.1 q.2 hrec]
        rfl

/-- C10: whenever `write_str` completes, it has transmitted every byte of the
string, in order, via `write_byte` (its trace's Data-register writes are
exactly the string's bytes) and its result is `Ok(())` — no input makes it
report a formatting error. -/
theorem write_str_transmits_all (env : Nat → Nat) (fuel : Nat) (s : List Nat)
    (r : Except Unit Unit) (tr : List Event)
    (h : write_str env fuel s = some (r, tr)) :
    r = Except.ok () ∧ tr.filterMap dataWriteValue = s := by
  rw [write_str] at h
  cases hgo : writeStrGo env fuel s 0 with
  | none => rw [hgo] at h; simp at h
  | some p =>
    rw [hgo] at h
    simp only [Option.map_some', Option.some.injEq] at h
    obtain ⟨hr, htr⟩ := Prod.mk.injEq .. ▸ h
    refine ⟨hr.symm, ?_⟩
    rw [← htr]
    exact writeStrGo_spec env fuel s 0 p.1 p.2 (by rw [hgo])

/-- C10 witness: `write_str` on the two-byte string `"Hi"` (72, 105) with the
transmit FIFO never full transmits both bytes in order and returns `Ok(())`. -/
theorem write_str_transmits_all_witness :
    (Except.ok () : Except Unit Unit) = Except.ok () ∧
    [Event.read Reg.fr 0, Event.write Reg.dr 72, Event.read Reg.fr 0,
      Event.write Reg.dr 105].filterMap dataWriteValue = [72, 105] :=
  write_str_transmits_all (fun _ => 0) 1 [72, 105] (Except.ok ())
    [Event.read Reg.fr 0, Event.write Reg.dr 72, Event.read Reg.fr 0,
      Event.write Reg.dr 105] (by decide)
